import Mathlib

/-!
# Verification of the leaky bucket rate limiter

Shallow embedding of `src/problems/rate-limiter-leaky-bucket.ts`.

The source keeps, per limiter instance, a map `userLimits` from user id to a
record `{ lastLeakTime, queueSize }`.  `allowRequest(userId, timestamp)`
creates the record `{ lastLeakTime := timestamp, queueSize := 1 }` on first
sight of a key (and admits); on a subsequent call it computes
`requestsToLeak = floor(((timestamp - lastLeakTime) / 1000) * leakRatePerSecond)`,
clamps `queueSize` at `max(0, queueSize - requestsToLeak)`, advances
`lastLeakTime` to `timestamp` exactly when `requestsToLeak > 0`, then admits
(incrementing `queueSize`) iff the post-leak `queueSize` is `< bucketCapacity`.

Timestamps are integers (milliseconds); configuration numbers are embedded as
rationals, and the queue size — always an integer in every reachable state of
the source — as an integer.  The state table is embedded as a total function
`String → Option UserLimit`.
-/

namespace LeakyBucket

/-- Per-key record stored in the `userLimits` map of the source. -/
structure UserLimit where
  lastLeakTime : ℤ
  queueSize : ℤ
  deriving DecidableEq

/-- Configuration captured by the closure returned by
`problem_createLeakyBucketRateLimiter`. -/
structure LeakyBucketConfig where
  bucketCapacity : ℚ
  leakRatePerSecond : ℚ
  deriving DecidableEq

/-- The `ConfigurationError` named by the specification (no such error type
exists anywhere in the source). -/
inductive ConfigurationError where
  | invalidConfig : ConfigurationError
  deriving DecidableEq

/-- Embedding of `problem_createLeakyBucketRateLimiter` (lines 37-46 of the
source).  The source body performs no validation of its parameters and
contains no `throw`; the `Except` return type records the possible
`ConfigurationError` outcome so that its absence can be stated. -/
def problem_createLeakyBucketRateLimiter (bucketCapacity leakRatePerSecond : ℚ) :
    Except ConfigurationError LeakyBucketConfig :=
  Except.ok ⟨bucketCapacity, leakRatePerSecond⟩

/-- `requestsToLeak = Math.floor((timeSinceLastLeak / 1000) * leakRatePerSecond)`
with `timeSinceLastLeak = timestamp - userLimit.lastLeakTime` (lines 58-64). -/
def requestsToLeak (cfg : LeakyBucketConfig) (userLimit : UserLimit) (timestamp : ℤ) : ℤ :=
  Int.floor (((timestamp - userLimit.lastLeakTime : ℤ) : ℚ) / 1000 * cfg.leakRatePerSecond)

/-- The body of `allowRequest` for a key that already has a record
(lines 58-80): leak, conditionally advance the leak clock, then admit iff the
post-leak queue size is below capacity.  Returns the boolean result and the
updated record. -/
def stepLimit (cfg : LeakyBucketConfig) (userLimit : UserLimit) (timestamp : ℤ) :
    Bool × UserLimit :=
  let leak := requestsToLeak cfg userLimit timestamp
  let queueSize : ℤ := max 0 (userLimit.queueSize - leak)
  let lastLeakTime : ℤ := if 0 < leak then timestamp else userLimit.lastLeakTime
  if (queueSize : ℚ) < cfg.bucketCapacity then
    (true, ⟨lastLeakTime, queueSize + 1⟩)
  else
    (false, ⟨lastLeakTime, queueSize⟩)

/-- Pointwise update of the `userLimits` map at one key. -/
def setLimit (userLimits : String → Option UserLimit) (userId : String)
    (userLimit : UserLimit) : String → Option UserLimit :=
  fun k => if k = userId then some userLimit else userLimits k

/-- Embedding of `allowRequest` (lines 47-81): on an unseen key create
`{ lastLeakTime := timestamp, queueSize := 1 }` and admit; otherwise run
`stepLimit` on the key's record. -/
def allowRequest (cfg : LeakyBucketConfig) (userLimits : String → Option UserLimit)
    (userId : String) (timestamp : ℤ) : Bool × (String → Option UserLimit) :=
  match userLimits userId with
  | none => (true, setLimit userLimits userId ⟨timestamp, 1⟩)
  | some userLimit =>
      let r := stepLimit cfg userLimit timestamp
      (r.1, setLimit userLimits userId r.2)

/-- The empty state table of a freshly constructed limiter. -/
def emptyLimits : String → Option UserLimit := fun _ => none

/-- Run a list of `(userId, timestamp)` calls, returning the list of boolean
results, each paired with the key of the call that produced it. -/
def runTrace (cfg : LeakyBucketConfig) :
    (String → Option UserLimit) → List (String × ℤ) → List (String × Bool)
  | _, [] => []
  | m, (userId, timestamp) :: rest =>
      (userId, (allowRequest cfg m userId timestamp).1) ::
        runTrace cfg (allowRequest cfg m userId timestamp).2 rest

/-- Run a list of `(userId, timestamp)` calls, returning the final state table. -/
def runState (cfg : LeakyBucketConfig) :
    (String → Option UserLimit) → List (String × ℤ) → (String → Option UserLimit)
  | m, [] => m
  | m, (userId, timestamp) :: rest =>
      runState cfg (allowRequest cfg m userId timestamp).2 rest

/-- The list of boolean admit/reject results of a run from the fresh state. -/
def admitResults (cfg : LeakyBucketConfig) (calls : List (String × ℤ)) : List Bool :=
  (runTrace cfg emptyLimits calls).map Prod.snd

/-- The number of admitted calls of a run from the fresh state. -/
def admittedCount (cfg : LeakyBucketConfig) (calls : List (String × ℤ)) : ℕ :=
  (admitResults cfg calls).count true

/-- Per key, the timestamps of the calls addressed to that key are
non-decreasing (the normal-operation assumption of the specification). -/
def PerKeyMonotone (calls : List (String × ℤ)) : Prop :=
  ∀ p ∈ calls,
    ((calls.filter (fun q => q.1 == p.1)).map Prod.snd).Pairwise (fun a b => a ≤ b)

instance (calls : List (String × ℤ)) : Decidable (PerKeyMonotone calls) := by
  unfold PerKeyMonotone
  infer_instance

/-! ### Integer-arithmetic mirror

`Rat` multiplication and division do not reduce inside the kernel, so concrete
runs of the limiter cannot be evaluated by `decide` directly.  The following
definitions mirror `requestsToLeak`, `stepLimit` and `allowRequest` using only
integer arithmetic; they are proved equal to the rational-arithmetic
definitions and are used solely to evaluate concrete scenarios. -/

/-- Integer form of `requestsToLeak`: for a rational rate `n/d` the floor of
`(Δ / 1000) * (n / d)` is the floor division `(Δ * n) / (1000 * d)`. -/
def requestsToLeakZ (cfg : LeakyBucketConfig) (userLimit : UserLimit) (timestamp : ℤ) : ℤ :=
  ((timestamp - userLimit.lastLeakTime) * cfg.leakRatePerSecond.num) /
    (1000 * (cfg.leakRatePerSecond.den : ℤ))

/-- Integer form of the admission test `(queueSize : ℚ) < bucketCapacity`. -/
def belowCapacityZ (cfg : LeakyBucketConfig) (queueSize : ℤ) : Prop :=
  queueSize * (cfg.bucketCapacity.den : ℤ) < cfg.bucketCapacity.num

instance (cfg : LeakyBucketConfig) (q : ℤ) : Decidable (belowCapacityZ cfg q) :=
  inferInstanceAs (Decidable (q * (cfg.bucketCapacity.den : ℤ) < cfg.bucketCapacity.num))

/-- Integer form of `stepLimit`. -/
def stepLimitZ (cfg : LeakyBucketConfig) (userLimit : UserLimit) (timestamp : ℤ) :
    Bool × UserLimit :=
  let leak := requestsToLeakZ cfg userLimit timestamp
  let queueSize : ℤ := max 0 (userLimit.queueSize - leak)
  let lastLeakTime : ℤ := if 0 < leak then timestamp else userLimit.lastLeakTime
  if belowCapacityZ cfg queueSize then
    (true, ⟨lastLeakTime, queueSize + 1⟩)
  else
    (false, ⟨lastLeakTime, queueSize⟩)

/-- Integer form of `allowRequest`. -/
def allowRequestZ (cfg : LeakyBucketConfig) (userLimits : String → Option UserLimit)
    (userId : String) (timestamp : ℤ) : Bool × (String → Option UserLimit) :=
  match userLimits userId with
  | none => (true, setLimit userLimits userId ⟨timestamp, 1⟩)
  | some userLimit =>
      let r := stepLimitZ cfg userLimit timestamp
      (r.1, setLimit userLimits userId r.2)

/-- Integer form of `runTrace`. -/
def runTraceZ (cfg : LeakyBucketConfig) :
    (String → Option UserLimit) → List (String × ℤ) → List (String × Bool)
  | _, [] => []
  | m, (userId, timestamp) :: rest =>
      (userId, (allowRequestZ cfg m userId timestamp).1) ::
        runTraceZ cfg (allowRequestZ cfg m userId timestamp).2 rest

/-- Integer form of `runState`. -/
def runStateZ (cfg : LeakyBucketConfig) :
    (String → Option UserLimit) → List (String × ℤ) → (String → Option UserLimit)
  | m, [] => m
  | m, (userId, timestamp) :: rest =>
      runStateZ cfg (allowRequestZ cfg m userId timestamp).2 rest

theorem requestsToLeak_eq_Z (cfg : LeakyBucketConfig) (ul : UserLimit) (t : ℤ) :
    requestsToLeak cfg ul t = requestsToLeakZ cfg ul t := by
  unfold requestsToLeak requestsToLeakZ
  have hd : ((cfg.leakRatePerSecond.den : ℚ)) ≠ 0 :=
    Nat.cast_ne_zero.mpr (Rat.den_ne_zero _)
  have key : ((t - ul.lastLeakTime : ℤ) : ℚ) / 1000 * cfg.leakRatePerSecond
      = (((t - ul.lastLeakTime) * cfg.leakRatePerSecond.num : ℤ) : ℚ) /
          (((1000 * cfg.leakRatePerSecond.den : ℕ)) : ℚ) := by
    conv_lhs => rw [← Rat.num_div_den cfg.leakRatePerSecond]
    push_cast
    field_simp
  rw [key, Rat.floor_intCast_div_natCast]
  congr 1

theorem belowCapacity_iff_Z (cfg : LeakyBucketConfig) (q : ℤ) :
    ((q : ℚ) < cfg.bucketCapacity) ↔ belowCapacityZ cfg q := by
  unfold belowCapacityZ
  conv_lhs => rw [← Rat.num_div_den cfg.bucketCapacity]
  rw [lt_div_iff₀ (by positivity : (0 : ℚ) < (cfg.bucketCapacity.den : ℚ))]
  exact_mod_cast Iff.rfl

theorem stepLimit_eq_Z (cfg : LeakyBucketConfig) (ul : UserLimit) (t : ℤ) :
    stepLimit cfg ul t = stepLimitZ cfg ul t := by
  unfold stepLimit stepLimitZ
  rw [requestsToLeak_eq_Z]
  exact if_congr (belowCapacity_iff_Z cfg _) rfl rfl

theorem allowRequest_eq_Z (cfg : LeakyBucketConfig) (m : String → Option UserLimit)
    (userId : String) (t : ℤ) :
    allowRequest cfg m userId t = allowRequestZ cfg m userId t := by
  unfold allowRequest allowRequestZ
  simp only [stepLimit_eq_Z]

theorem runTrace_eq_Z (cfg : LeakyBucketConfig) :
    ∀ (calls : List (String × ℤ)) (m : String → Option UserLimit),
      runTrace cfg m calls = runTraceZ cfg m calls
  | [], _ => rfl
  | (userId, timestamp) :: rest, m => by
      unfold runTrace runTraceZ
      rw [allowRequest_eq_Z, runTrace_eq_Z cfg rest]

theorem runState_eq_Z (cfg : LeakyBucketConfig) :
    ∀ (calls : List (String × ℤ)) (m : String → Option UserLimit),
      runState cfg m calls = runStateZ cfg m calls
  | [], _ => rfl
  | (userId, timestamp) :: rest, m => by
      unfold runState runStateZ
      rw [allowRequest_eq_Z, runState_eq_Z cfg rest]

theorem admitResults_eq_Z (cfg : LeakyBucketConfig) (calls : List (String × ℤ)) :
    admitResults cfg calls = (runTraceZ cfg emptyLimits calls).map Prod.snd := by
  unfold admitResults
  rw [runTrace_eq_Z]

/-! ### Basic unfolding lemmas -/

theorem setLimit_self (m : String → Option UserLimit) (userId : String) (ul : UserLimit) :
    setLimit m userId ul userId = some ul := by
  simp [setLimit]

theorem setLimit_other (m : String → Option UserLimit) (userId k : String) (ul : UserLimit)
    (h : k ≠ userId) : setLimit m userId ul k = m k := by
  simp [setLimit, h]

theorem allowRequest_eq_none (cfg : LeakyBucketConfig) (m : String → Option UserLimit)
    (userId : String) (t : ℤ) (hm : m userId = none) :
    allowRequest cfg m userId t = (true, setLimit m userId ⟨t, 1⟩) := by
  unfold allowRequest
  rw [hm]

theorem allowRequest_eq_some (cfg : LeakyBucketConfig) (m : String → Option UserLimit)
    (userId : String) (t : ℤ) (ul : UserLimit) (hm : m userId = some ul) :
    allowRequest cfg m userId t =
      ((stepLimit cfg ul t).1, setLimit m userId (stepLimit cfg ul t).2) := by
  unfold allowRequest
  rw [hm]

theorem allowRequest_frame (cfg : LeakyBucketConfig) (m : String → Option UserLimit)
    (userId k : String) (t : ℤ) (hk : k ≠ userId) :
    (allowRequest cfg m userId t).2 k = m k := by
  cases hm : m userId with
  | none => rw [allowRequest_eq_none cfg m userId t hm]; exact setLimit_other _ _ _ _ hk
  | some ul => rw [allowRequest_eq_some cfg m userId t ul hm]; exact setLimit_other _ _ _ _ hk

theorem allowRequest_fst_congr (cfg : LeakyBucketConfig) (m m' : String → Option UserLimit)
    (userId : String) (t : ℤ) (h : m userId = m' userId) :
    (allowRequest cfg m userId t).1 = (allowRequest cfg m' userId t).1 := by
  cases hm : m userId with
  | none =>
      rw [allowRequest_eq_none cfg m userId t hm,
        allowRequest_eq_none cfg m' userId t (h ▸ hm)]
  | some ul =>
      rw [allowRequest_eq_some cfg m userId t ul hm,
        allowRequest_eq_some cfg m' userId t ul (h ▸ hm)]

theorem allowRequest_self_congr (cfg : LeakyBucketConfig) (m m' : String → Option UserLimit)
    (userId : String) (t : ℤ) (h : m userId = m' userId) :
    (allowRequest cfg m userId t).2 userId = (allowRequest cfg m' userId t).2 userId := by
  cases hm : m userId with
  | none =>
      rw [allowRequest_eq_none cfg m userId t hm,
        allowRequest_eq_none cfg m' userId t (h ▸ hm)]
      simp [setLimit]
  | some ul =>
      rw [allowRequest_eq_some cfg m userId t ul hm,
        allowRequest_eq_some cfg m' userId t ul (h ▸ hm)]
      simp [setLimit]

theorem allowRequest_some_fst (cfg : LeakyBucketConfig) (m : String → Option UserLimit)
    (userId : String) (timestamp : ℤ) (ul : UserLimit) (hm : m userId = some ul) :
    (allowRequest cfg m userId timestamp).1 = true ↔
      ((max 0 (ul.queueSize - requestsToLeak cfg ul timestamp) : ℤ) : ℚ) <
        cfg.bucketCapacity := by
  have hstep : stepLimit cfg ul timestamp =
      if ((max 0 (ul.queueSize - requestsToLeak cfg ul timestamp) : ℤ) : ℚ) <
          cfg.bucketCapacity then
        (true, ⟨if 0 < requestsToLeak cfg ul timestamp then timestamp else ul.lastLeakTime,
          max 0 (ul.queueSize - requestsToLeak cfg ul timestamp) + 1⟩)
      else
        (false, ⟨if 0 < requestsToLeak cfg ul timestamp then timestamp else ul.lastLeakTime,
          max 0 (ul.queueSize - requestsToLeak cfg ul timestamp)⟩) := rfl
  rw [allowRequest_eq_some cfg m userId timestamp ul hm, hstep]
  by_cases h : ((max 0 (ul.queueSize - requestsToLeak cfg ul timestamp) : ℤ) : ℚ) <
    cfg.bucketCapacity
  · rw [if_pos h]
    exact iff_of_true rfl h
  · rw [if_neg h]
    exact iff_of_false (by simp) h

theorem allowRequest_some_state (cfg : LeakyBucketConfig) (m : String → Option UserLimit)
    (userId : String) (timestamp : ℤ) (ul : UserLimit) (hm : m userId = some ul) :
    (allowRequest cfg m userId timestamp).2 userId =
      some { lastLeakTime :=
               if 0 < requestsToLeak cfg ul timestamp then timestamp else ul.lastLeakTime,
             queueSize :=
               max 0 (ul.queueSize - requestsToLeak cfg ul timestamp) +
                 if ((max 0 (ul.queueSize - requestsToLeak cfg ul timestamp) : ℤ) : ℚ) <
                     cfg.bucketCapacity then 1 else 0 } := by
  have hstep : stepLimit cfg ul timestamp =
      if ((max 0 (ul.queueSize - requestsToLeak cfg ul timestamp) : ℤ) : ℚ) <
          cfg.bucketCapacity then
        (true, ⟨if 0 < requestsToLeak cfg ul timestamp then timestamp else ul.lastLeakTime,
          max 0 (ul.queueSize - requestsToLeak cfg ul timestamp) + 1⟩)
      else
        (false, ⟨if 0 < requestsToLeak cfg ul timestamp then timestamp else ul.lastLeakTime,
          max 0 (ul.queueSize - requestsToLeak cfg ul timestamp)⟩) := rfl
  rw [allowRequest_eq_some cfg m userId timestamp ul hm, hstep]
  by_cases h : ((max 0 (ul.queueSize - requestsToLeak cfg ul timestamp) : ℤ) : ℚ) <
    cfg.bucketCapacity
  · rw [if_pos h, if_pos h]
    simp [setLimit]
  · rw [if_neg h, if_neg h]
    simp [setLimit]

/-- The results that a run from `m` produces for key `a` depend only on
`m a`, and equal the results of running only `a`'s calls from any state that
agrees on `a`. -/
theorem runTrace_filterMap (cfg : LeakyBucketConfig) (a : String) :
    ∀ (calls : List (String × ℤ)) (m m' : String → Option UserLimit), m a = m' a →
      (runTrace cfg m calls).filterMap (fun p => if p.1 = a then some p.2 else none) =
        (runTrace cfg m' (calls.filter (fun p => p.1 == a))).map Prod.snd
  | [], _, _, _ => rfl
  | (k, t) :: rest, m, m', h => by
      by_cases hk : k = a
      · subst hk
        rw [List.filter_cons_of_pos (by simp)]
        simp only [runTrace, List.filterMap_cons, List.map_cons, if_pos rfl]
        rw [allowRequest_fst_congr cfg m m' k t h,
          runTrace_filterMap cfg k rest (allowRequest cfg m k t).2 (allowRequest cfg m' k t).2
            (allowRequest_self_congr cfg m m' k t h)]
        simp
      · rw [List.filter_cons_of_neg (by simp [hk])]
        simp only [runTrace, List.filterMap_cons, if_neg hk]
        exact runTrace_filterMap cfg a rest (allowRequest cfg m k t).2 m'
          (by rw [allowRequest_frame cfg m k a t (fun he => hk he.symm)]; exact h)

/-! ### Queue-size invariant machinery -/

theorem stepLimit_def (cfg : LeakyBucketConfig) (ul : UserLimit) (t : ℤ) :
    stepLimit cfg ul t =
      if ((max 0 (ul.queueSize - requestsToLeak cfg ul t) : ℤ) : ℚ) < cfg.bucketCapacity then
        (true, ⟨if 0 < requestsToLeak cfg ul t then t else ul.lastLeakTime,
          max 0 (ul.queueSize - requestsToLeak cfg ul t) + 1⟩)
      else
        (false, ⟨if 0 < requestsToLeak cfg ul t then t else ul.lastLeakTime,
          max 0 (ul.queueSize - requestsToLeak cfg ul t)⟩) := rfl

theorem requestsToLeak_nonneg (cfg : LeakyBucketConfig) (ul : UserLimit) (t : ℤ)
    (hr : 0 < cfg.leakRatePerSecond) (hll : ul.lastLeakTime ≤ t) :
    0 ≤ requestsToLeak cfg ul t := by
  unfold requestsToLeak
  apply Int.floor_nonneg.mpr
  apply mul_nonneg (div_nonneg ?_ (by norm_num)) hr.le
  exact_mod_cast sub_nonneg.mpr hll

theorem stepLimit_bounds (cfg : LeakyBucketConfig) (c : ℤ) (hcap : cfg.bucketCapacity = (c : ℚ))
    (ul : UserLimit) (t : ℤ) (hq0 : 0 ≤ ul.queueSize) (hqc : ul.queueSize ≤ c)
    (hleak : 0 ≤ requestsToLeak cfg ul t) :
    0 ≤ (stepLimit cfg ul t).2.queueSize ∧ (stepLimit cfg ul t).2.queueSize ≤ c := by
  rw [stepLimit_def]
  by_cases h : ((max 0 (ul.queueSize - requestsToLeak cfg ul t) : ℤ) : ℚ) < cfg.bucketCapacity
  · rw [if_pos h]
    have h' : max 0 (ul.queueSize - requestsToLeak cfg ul t) < c := by
      rw [hcap] at h
      exact_mod_cast h
    show 0 ≤ max 0 (ul.queueSize - requestsToLeak cfg ul t) + 1 ∧
      max 0 (ul.queueSize - requestsToLeak cfg ul t) + 1 ≤ c
    omega
  · rw [if_neg h]
    show 0 ≤ max 0 (ul.queueSize - requestsToLeak cfg ul t) ∧
      max 0 (ul.queueSize - requestsToLeak cfg ul t) ≤ c
    omega

theorem stepLimit_lastLeakTime (cfg : LeakyBucketConfig) (ul : UserLimit) (t : ℤ) :
    (stepLimit cfg ul t).2.lastLeakTime =
      if 0 < requestsToLeak cfg ul t then t else ul.lastLeakTime := by
  rw [stepLimit_def]
  split <;> rfl

/-- Every stored queue size lies in `[0, c]`. -/
def QueueBounds (c : ℤ) (m : String → Option UserLimit) : Prop :=
  ∀ k ul, m k = some ul → 0 ≤ ul.queueSize ∧ ul.queueSize ≤ c

/-- Every stored leak clock is at or before every upcoming timestamp of its
key. -/
def LeakClockBefore (m : String → Option UserLimit) (calls : List (String × ℤ)) : Prop :=
  ∀ k ul, m k = some ul → ∀ p ∈ calls, p.1 = k → ul.lastLeakTime ≤ p.2

theorem runState_bounds (cfg : LeakyBucketConfig) (c : ℤ) (hcap : cfg.bucketCapacity = (c : ℚ))
    (hc : 1 ≤ c) (hr : 0 < cfg.leakRatePerSecond) :
    ∀ (calls : List (String × ℤ)) (m : String → Option UserLimit),
      QueueBounds c m → LeakClockBefore m calls → PerKeyMonotone calls →
      QueueBounds c (runState cfg m calls)
  | [], _, hQ, _, _ => hQ
  | (k, t) :: rest, m, hQ, hL, hM => by
      have hmem : ((k, t) : String × ℤ) ∈ (k, t) :: rest := List.mem_cons_self _ _
      show QueueBounds c (runState cfg (allowRequest cfg m k t).2 rest)
      refine runState_bounds cfg c hcap hc hr rest (allowRequest cfg m k t).2 ?_ ?_ ?_
      · intro k' ul' hm'
        by_cases hk : k' = k
        · subst hk
          cases hmk : m k' with
          | none =>
              rw [allowRequest_eq_none cfg m k' t hmk] at hm'
              replace hm' : setLimit m k' ⟨t, 1⟩ k' = some ul' := hm'
              rw [setLimit_self] at hm'
              obtain rfl : (⟨t, 1⟩ : UserLimit) = ul' := Option.some.inj hm'
              exact ⟨show (0 : ℤ) ≤ 1 by norm_num, show (1 : ℤ) ≤ c from hc⟩
          | some ul =>
              rw [allowRequest_eq_some cfg m k' t ul hmk] at hm'
              replace hm' : setLimit m k' (stepLimit cfg ul t).2 k' = some ul' := hm'
              rw [setLimit_self] at hm'
              obtain rfl : (stepLimit cfg ul t).2 = ul' := Option.some.inj hm'
              obtain ⟨hq0, hqc⟩ := hQ k' ul hmk
              have hll : ul.lastLeakTime ≤ t := hL k' ul hmk (k', t) hmem rfl
              exact stepLimit_bounds cfg c hcap ul t hq0 hqc
                (requestsToLeak_nonneg cfg ul t hr hll)
        · rw [allowRequest_frame cfg m k k' t hk] at hm'
          exact hQ k' ul' hm'
      · intro k' ul' hm' p hp hpk
        by_cases hk : k' = k
        · subst hk
          have hpw := hM (k', t) hmem
          rw [List.filter_cons_of_pos (by simp), List.map_cons] at hpw
          have hp2 : t ≤ p.2 := (List.pairwise_cons.mp hpw).1 p.2
            (List.mem_map.mpr ⟨p, List.mem_filter.mpr ⟨hp, by simp [hpk]⟩, rfl⟩)
          cases hmk : m k' with
          | none =>
              rw [allowRequest_eq_none cfg m k' t hmk] at hm'
              replace hm' : setLimit m k' ⟨t, 1⟩ k' = some ul' := hm'
              rw [setLimit_self] at hm'
              obtain rfl : (⟨t, 1⟩ : UserLimit) = ul' := Option.some.inj hm'
              exact hp2
          | some ul =>
              rw [allowRequest_eq_some cfg m k' t ul hmk] at hm'
              replace hm' : setLimit m k' (stepLimit cfg ul t).2 k' = some ul' := hm'
              rw [setLimit_self] at hm'
              obtain rfl : (stepLimit cfg ul t).2 = ul' := Option.some.inj hm'
              have hll : ul.lastLeakTime ≤ t := hL k' ul hmk (k', t) hmem rfl
              rw [stepLimit_lastLeakTime]
              split
              · exact hp2
              · exact le_trans hll hp2
        · rw [allowRequest_frame cfg m k k' t hk] at hm'
          exact hL k' ul' hm' p (List.mem_cons_of_mem _ hp) hpk
      · intro p hp
        have hcalls := hM p (List.mem_cons_of_mem _ hp)
        by_cases hk : k = p.1
        · rw [List.filter_cons_of_pos (by simp [hk]), List.map_cons] at hcalls
          exact (List.pairwise_cons.mp hcalls).2
        · rw [List.filter_cons_of_neg (by simp [hk])] at hcalls
          exact hcalls

/-! ### Capacity-monotonicity machinery

Two limiters that differ only in capacity are coupled key by key: their leak
clocks coincide (the clock never depends on capacity), the smaller-capacity
queue never overtakes the larger one, and the gap never exceeds the gap of the
integer effective capacities `⌈capacity⌉` (an integer queue admits iff it is
`< ⌈capacity⌉`). -/

/-- Coupling between the per-key records of a small-capacity limiter (left)
and a large-capacity limiter (right), where `d` bounds the queue gap. -/
def LimitRel (d : ℤ) : Option UserLimit → Option UserLimit → Prop
  | none, none => True
  | some u1, some u2 =>
      u1.lastLeakTime = u2.lastLeakTime ∧ u1.queueSize ≤ u2.queueSize ∧
        u2.queueSize ≤ u1.queueSize + d
  | _, _ => False

theorem LimitRel_none (d : ℤ) : LimitRel d none none := trivial

theorem LimitRel_some_iff (d : ℤ) (u1 u2 : UserLimit) :
    LimitRel d (some u1) (some u2) ↔
      (u1.lastLeakTime = u2.lastLeakTime ∧ u1.queueSize ≤ u2.queueSize ∧
        u2.queueSize ≤ u1.queueSize + d) := Iff.rfl

theorem requestsToLeak_congr (cfg1 cfg2 : LeakyBucketConfig) (u1 u2 : UserLimit) (t : ℤ)
    (hrate : cfg1.leakRatePerSecond = cfg2.leakRatePerSecond)
    (hllt : u1.lastLeakTime = u2.lastLeakTime) :
    requestsToLeak cfg1 u1 t = requestsToLeak cfg2 u2 t := by
  unfold requestsToLeak
  rw [hrate, hllt]

theorem stepLimit_mono (cfg1 cfg2 : LeakyBucketConfig)
    (hrate : cfg1.leakRatePerSecond = cfg2.leakRatePerSecond)
    (hcap : cfg1.bucketCapacity ≤ cfg2.bucketCapacity)
    (u1 u2 : UserLimit) (t : ℤ)
    (hllt : u1.lastLeakTime = u2.lastLeakTime)
    (hq : u1.queueSize ≤ u2.queueSize)
    (hd : u2.queueSize ≤ u1.queueSize + (⌈cfg2.bucketCapacity⌉ - ⌈cfg1.bucketCapacity⌉)) :
    ((stepLimit cfg1 u1 t).1 = true → (stepLimit cfg2 u2 t).1 = true) ∧
    (stepLimit cfg1 u1 t).2.lastLeakTime = (stepLimit cfg2 u2 t).2.lastLeakTime ∧
    (stepLimit cfg1 u1 t).2.queueSize ≤ (stepLimit cfg2 u2 t).2.queueSize ∧
    (stepLimit cfg2 u2 t).2.queueSize ≤
      (stepLimit cfg1 u1 t).2.queueSize +
        (⌈cfg2.bucketCapacity⌉ - ⌈cfg1.bucketCapacity⌉) := by
  have hL : requestsToLeak cfg1 u1 t = requestsToLeak cfg2 u2 t :=
    requestsToLeak_congr cfg1 cfg2 u1 u2 t hrate hllt
  have hceil : ⌈cfg1.bucketCapacity⌉ ≤ ⌈cfg2.bucketCapacity⌉ := Int.ceil_le_ceil hcap
  rw [stepLimit_def, stepLimit_def, ← hL]
  set L := requestsToLeak cfg1 u1 t with hLdef
  set q1 := max 0 (u1.queueSize - L) with hq1
  set q2 := max 0 (u2.queueSize - L) with hq2
  have hq12 : q1 ≤ q2 := by omega
  have hd12 : q2 ≤ q1 + (⌈cfg2.bucketCapacity⌉ - ⌈cfg1.bucketCapacity⌉) := by omega
  by_cases h1 : ((q1 : ℤ) : ℚ) < cfg1.bucketCapacity
  · have h1' : q1 < ⌈cfg1.bucketCapacity⌉ := Int.lt_ceil.mpr h1
    by_cases h2 : ((q2 : ℤ) : ℚ) < cfg2.bucketCapacity
    · rw [if_pos h1, if_pos h2]
      refine ⟨fun _ => rfl, ?_, ?_, ?_⟩
      · show (if 0 < L then t else u1.lastLeakTime) = (if 0 < L then t else u2.lastLeakTime)
        rw [hllt]
      · show q1 + 1 ≤ q2 + 1
        omega
      · show q2 + 1 ≤ q1 + 1 + (⌈cfg2.bucketCapacity⌉ - ⌈cfg1.bucketCapacity⌉)
        omega
    · exfalso
      have h2' : ⌈cfg2.bucketCapacity⌉ ≤ q2 := Int.ceil_le.mpr (not_lt.mp h2)
      omega
  · have h1' : ⌈cfg1.bucketCapacity⌉ ≤ q1 := Int.ceil_le.mpr (not_lt.mp h1)
    by_cases h2 : ((q2 : ℤ) : ℚ) < cfg2.bucketCapacity
    · have h2' : q2 < ⌈cfg2.bucketCapacity⌉ := Int.lt_ceil.mpr h2
      rw [if_neg h1, if_pos h2]
      refine ⟨fun hh => rfl, ?_, ?_, ?_⟩
      · show (if 0 < L then t else u1.lastLeakTime) = (if 0 < L then t else u2.lastLeakTime)
        rw [hllt]
      · show q1 ≤ q2 + 1
        omega
      · show q2 + 1 ≤ q1 + (⌈cfg2.bucketCapacity⌉ - ⌈cfg1.bucketCapacity⌉)
        omega
    · rw [if_neg h1, if_neg h2]
      refine ⟨fun hh => hh, ?_, hq12, hd12⟩
      show (if 0 < L then t else u1.lastLeakTime) = (if 0 < L then t else u2.lastLeakTime)
      rw [hllt]

theorem allowRequest_mono (cfg1 cfg2 : LeakyBucketConfig)
    (hrate : cfg1.leakRatePerSecond = cfg2.leakRatePerSecond)
    (hcap : cfg1.bucketCapacity ≤ cfg2.bucketCapacity)
    (m1 m2 : String → Option UserLimit)
    (hrel : ∀ k, LimitRel (⌈cfg2.bucketCapacity⌉ - ⌈cfg1.bucketCapacity⌉) (m1 k) (m2 k))
    (userId : String) (t : ℤ) :
    ((allowRequest cfg1 m1 userId t).1 = true → (allowRequest cfg2 m2 userId t).1 = true) ∧
    (∀ k, LimitRel (⌈cfg2.bucketCapacity⌉ - ⌈cfg1.bucketCapacity⌉)
      ((allowRequest cfg1 m1 userId t).2 k) ((allowRequest cfg2 m2 userId t).2 k)) := by
  have hceil : ⌈cfg1.bucketCapacity⌉ ≤ ⌈cfg2.bucketCapacity⌉ := Int.ceil_le_ceil hcap
  have hrelu := hrel userId
  cases h1 : m1 userId with
  | none =>
      cases h2 : m2 userId with
      | none =>
          rw [allowRequest_eq_none cfg1 m1 userId t h1,
            allowRequest_eq_none cfg2 m2 userId t h2]
          refine ⟨fun _ => rfl, fun k => ?_⟩
          by_cases hk : k = userId
          · subst hk
            show LimitRel _ (setLimit m1 k ⟨t, 1⟩ k) (setLimit m2 k ⟨t, 1⟩ k)
            rw [setLimit_self, setLimit_self, LimitRel_some_iff]
            exact ⟨rfl, le_rfl, by omega⟩
          · show LimitRel _ (setLimit m1 userId ⟨t, 1⟩ k) (setLimit m2 userId ⟨t, 1⟩ k)
            rw [setLimit_other _ _ _ _ hk, setLimit_other _ _ _ _ hk]
            exact hrel k
      | some u2 =>
          rw [h1, h2] at hrelu
          exact hrelu.elim
  | some u1 =>
      cases h2 : m2 userId with
      | none =>
          rw [h1, h2] at hrelu
          exact hrelu.elim
      | some u2 =>
          rw [h1, h2, LimitRel_some_iff] at hrelu
          obtain ⟨hllt, hq, hd⟩ := hrelu
          have hs := stepLimit_mono cfg1 cfg2 hrate hcap u1 u2 t hllt hq hd
          rw [allowRequest_eq_some cfg1 m1 userId t u1 h1,
            allowRequest_eq_some cfg2 m2 userId t u2 h2]
          refine ⟨fun hh => hs.1 hh, fun k => ?_⟩
          by_cases hk : k = userId
          · subst hk
            show LimitRel _ (setLimit m1 k (stepLimit cfg1 u1 t).2 k)
              (setLimit m2 k (stepLimit cfg2 u2 t).2 k)
            rw [setLimit_self, setLimit_self, LimitRel_some_iff]
            exact ⟨hs.2.1, hs.2.2.1, hs.2.2.2⟩
          · show LimitRel _ (setLimit m1 userId (stepLimit cfg1 u1 t).2 k)
              (setLimit m2 userId (stepLimit cfg2 u2 t).2 k)
            rw [setLimit_other _ _ _ _ hk, setLimit_other _ _ _ _ hk]
            exact hrel k

theorem runTrace_mono (cfg1 cfg2 : LeakyBucketConfig)
    (hrate : cfg1.leakRatePerSecond = cfg2.leakRatePerSecond)
    (hcap : cfg1.bucketCapacity ≤ cfg2.bucketCapacity) :
    ∀ (calls : List (String × ℤ)) (m1 m2 : String → Option UserLimit),
      (∀ k, LimitRel (⌈cfg2.bucketCapacity⌉ - ⌈cfg1.bucketCapacity⌉) (m1 k) (m2 k)) →
      List.Forall₂ (fun b1 b2 : Bool => b1 = true → b2 = true)
        ((runTrace cfg1 m1 calls).map Prod.snd) ((runTrace cfg2 m2 calls).map Prod.snd)
  | [], _, _, _ => List.Forall₂.nil
  | (k, t) :: rest, m1, m2, hrel => by
      have h := allowRequest_mono cfg1 cfg2 hrate hcap m1 m2 hrel k t
      simp only [runTrace, List.map_cons]
      exact List.Forall₂.cons h.1 (runTrace_mono cfg1 cfg2 hrate hcap rest _ _ h.2)

theorem count_true_le_of_forall₂ {l1 l2 : List Bool}
    (h : List.Forall₂ (fun b1 b2 => b1 = true → b2 = true) l1 l2) :
    l1.count true ≤ l2.count true := by
  induction h with
  | nil => exact le_rfl
  | @cons a b l1' l2' h1 h2 ih =>
      cases a <;> cases b
      · simpa using ih
      · simp only [List.count_cons]
        simp
        omega
      · exact absurd (h1 rfl) (by simp)
      · simp only [List.count_cons]
        simp
        omega

/-! ### Claim theorems -/

/-- Claim C3, counterexample: constructing the leaky bucket limiter with
`bucketCapacity = 0` (which is `≤ 0`) does not raise a `ConfigurationError`;
the constructor returns a limiter unchanged, refuting the claim that
construction fails for non-positive parameters. -/
theorem create_zero_capacity_returns_limiter :
    problem_createLeakyBucketRateLimiter 0 2 =
      Except.ok { bucketCapacity := 0, leakRatePerSecond := 2 } := rfl

/-- Claim C3, amended: `problem_createLeakyBucketRateLimiter` performs no
construction-time validation at all: for every `bucketCapacity` and
`leakRatePerSecond`, including non-positive values, it returns a limiter
holding exactly those parameters and never raises a `ConfigurationError`. -/
theorem create_never_validates (bucketCapacity leakRatePerSecond : ℚ) :
    problem_createLeakyBucketRateLimiter bucketCapacity leakRatePerSecond =
      Except.ok { bucketCapacity := bucketCapacity,
                  leakRatePerSecond := leakRatePerSecond } := rfl

/-- Claim C4: the first `allowRequest(userId, timestamp)` call for a key with
no existing record returns `true` and creates the record
`{ queueSize := 1, lastLeakTime := timestamp }`, for every configuration. -/
theorem first_call_admitted (cfg : LeakyBucketConfig) (m : String → Option UserLimit)
    (userId : String) (timestamp : ℤ) (hm : m userId = none) :
    (allowRequest cfg m userId timestamp).1 = true ∧
    (allowRequest cfg m userId timestamp).2 userId =
      some { lastLeakTime := timestamp, queueSize := 1 } := by
  rw [allowRequest_eq_none cfg m userId timestamp hm]
  exact ⟨rfl, setLimit_self _ _ _⟩

/-- Witness for C4 at `cfg = ⟨5, 2⟩`, the fresh state, key `"user1"`, time 0. -/
theorem first_call_admitted_witness :
    emptyLimits "user1" = none ∧
    ((allowRequest ⟨5, 2⟩ emptyLimits "user1" 0).1 = true ∧
      (allowRequest ⟨5, 2⟩ emptyLimits "user1" 0).2 "user1" =
        some { lastLeakTime := 0, queueSize := 1 }) :=
  ⟨rfl, first_call_admitted ⟨5, 2⟩ emptyLimits "user1" 0 rfl⟩

/-- Claim C5: with `capacity = 5` and `leakRatePerSecond = 2`, a single key
gets five admits at `t = 0`, a rejection on the sixth call at `t = 0`, then at
`t = 1000` two admits and a third rejection. -/
theorem scenario_cap5_rate2 :
    admitResults ⟨5, 2⟩
        [("user1", 0), ("user1", 0), ("user1", 0), ("user1", 0), ("user1", 0),
          ("user1", 0), ("user1", 1000), ("user1", 1000), ("user1", 1000)] =
      [true, true, true, true, true, false, true, true, false] := by
  rw [admitResults_eq_Z]
  decide

/-- Claim C1: on a call for a key that already has a record, the leak count is
`floor(((timestamp - lastLeakTime) / 1000) * leakRatePerSecond)`, the queue is
clamped at `max 0 (queueSize - leaked)`, `lastLeakTime` advances to the call's
timestamp exactly when `leaked > 0`, and the call admits (incrementing the
post-leak queue by exactly 1) iff the post-leak queue is below capacity. -/
theorem subsequent_call_spec (cfg : LeakyBucketConfig) (m : String → Option UserLimit)
    (userId : String) (timestamp : ℤ) (ul : UserLimit) (hm : m userId = some ul) :
    requestsToLeak cfg ul timestamp =
      Int.floor (((timestamp : ℚ) - (ul.lastLeakTime : ℚ)) / 1000 * cfg.leakRatePerSecond) ∧
    ((allowRequest cfg m userId timestamp).1 = true ↔
      ((max 0 (ul.queueSize - requestsToLeak cfg ul timestamp) : ℤ) : ℚ) <
        cfg.bucketCapacity) ∧
    (allowRequest cfg m userId timestamp).2 userId =
      some { lastLeakTime :=
               if 0 < requestsToLeak cfg ul timestamp then timestamp else ul.lastLeakTime,
             queueSize :=
               max 0 (ul.queueSize - requestsToLeak cfg ul timestamp) +
                 if ((max 0 (ul.queueSize - requestsToLeak cfg ul timestamp) : ℤ) : ℚ) <
                     cfg.bucketCapacity then 1 else 0 } := by
  exact ⟨by rw [requestsToLeak]; push_cast; ring_nf,
    allowRequest_some_fst cfg m userId timestamp ul hm,
    allowRequest_some_state cfg m userId timestamp ul hm⟩

/-- Witness for C1: a record `⟨0, 3⟩` under `cfg = ⟨5, 2⟩` at `t = 1000` leaks
2, leaving 1 in the queue, and the call is admitted to a queue of 2. -/
theorem subsequent_call_spec_witness :
    setLimit emptyLimits "user1" ⟨0, 3⟩ "user1" = some ⟨0, 3⟩ ∧
    (allowRequest ⟨5, 2⟩ (setLimit emptyLimits "user1" ⟨0, 3⟩) "user1" 1000).2 "user1" =
      some { lastLeakTime := 1000, queueSize := 2 } := by
  have h := subsequent_call_spec ⟨5, 2⟩ (setLimit emptyLimits "user1" ⟨0, 3⟩)
    "user1" 1000 ⟨0, 3⟩ rfl
  refine ⟨rfl, ?_⟩
  rw [h.2.2]
  simp only [requestsToLeak_eq_Z, belowCapacity_iff_Z]
  decide

/-- Claim C8: `admit` is total — it returns a boolean, its result and the
updated record of the addressed key are a function of that key's current
record alone, and no other key's record is touched. -/
theorem admit_total_function (cfg : LeakyBucketConfig) (m : String → Option UserLimit)
    (userId : String) (timestamp : ℤ) (ht : 0 ≤ timestamp) :
    ((allowRequest cfg m userId timestamp).1 = true ∨
      (allowRequest cfg m userId timestamp).1 = false) ∧
    (∀ k, k ≠ userId → (allowRequest cfg m userId timestamp).2 k = m k) ∧
    (∀ m' : String → Option UserLimit, m userId = m' userId →
      (allowRequest cfg m userId timestamp).1 = (allowRequest cfg m' userId timestamp).1 ∧
      (allowRequest cfg m userId timestamp).2 userId =
        (allowRequest cfg m' userId timestamp).2 userId) :=
  ⟨Bool.eq_false_or_eq_true _,
    fun k hk => allowRequest_frame cfg m userId k timestamp hk,
    fun m' h => ⟨allowRequest_fst_congr cfg m m' userId timestamp h,
      allowRequest_self_congr cfg m m' userId timestamp h⟩⟩

/-- Witness for C8: at `cfg = ⟨5, 2⟩`, the fresh state, key `"user1"`, time 0,
the record of the unrelated key `"user2"` is untouched. -/
theorem admit_total_function_witness :
    (allowRequest ⟨5, 2⟩ emptyLimits "user1" 0).2 "user2" = emptyLimits "user2" :=
  (admit_total_function ⟨5, 2⟩ emptyLimits "user1" 0 (by decide)).2.1 "user2" (by decide)

/-- Claim C9: on a call whose timestamp is strictly earlier than the stored
`lastLeakTime` (with a positive leak rate), the computed leak count is
negative, the clamp does not fire, the stored `queueSize` strictly increases
by `|leaked|` (plus the admission increment), `lastLeakTime` is not advanced,
and — as the concrete run in the last conjunct shows — the stored `queueSize`
can exceed the capacity. -/
theorem regression_increases_queue (cfg : LeakyBucketConfig) (m : String → Option UserLimit)
    (userId : String) (timestamp : ℤ) (ul : UserLimit) (hm : m userId = some ul)
    (hq : 0 ≤ ul.queueSize) (ht : timestamp < ul.lastLeakTime)
    (hr : 0 < cfg.leakRatePerSecond) :
    requestsToLeak cfg ul timestamp < 0 ∧
    max 0 (ul.queueSize - requestsToLeak cfg ul timestamp) =
      ul.queueSize - requestsToLeak cfg ul timestamp ∧
    ul.queueSize < ul.queueSize - requestsToLeak cfg ul timestamp ∧
    (allowRequest cfg m userId timestamp).2 userId =
      some { lastLeakTime := ul.lastLeakTime,
             queueSize :=
               (ul.queueSize - requestsToLeak cfg ul timestamp) +
                 if ((ul.queueSize - requestsToLeak cfg ul timestamp : ℤ) : ℚ) <
                     cfg.bucketCapacity then 1 else 0 } ∧
    (∃ ul', runState ⟨5, 2⟩ emptyLimits [("user1", 10000), ("user1", 0)] "user1" = some ul' ∧
      (⟨5, 2⟩ : LeakyBucketConfig).bucketCapacity < (ul'.queueSize : ℚ)) := by
  have hL : requestsToLeak cfg ul timestamp < 0 := by
    have hΔ : ((timestamp - ul.lastLeakTime : ℤ) : ℚ) < 0 := by
      exact_mod_cast sub_neg.mpr ht
    have hx : ((timestamp - ul.lastLeakTime : ℤ) : ℚ) / 1000 * cfg.leakRatePerSecond < 0 :=
      mul_neg_of_neg_of_pos (div_neg_of_neg_of_pos hΔ (by norm_num)) hr
    exact Int.floor_lt.mpr (by exact_mod_cast hx)
  have hmax : max 0 (ul.queueSize - requestsToLeak cfg ul timestamp) =
      ul.queueSize - requestsToLeak cfg ul timestamp := by omega
  refine ⟨hL, hmax, by omega, ?_, ?_⟩
  · rw [allowRequest_some_state cfg m userId timestamp ul hm, hmax,
      if_neg (by omega : ¬ 0 < requestsToLeak cfg ul timestamp)]
  · refine ⟨⟨10000, 21⟩, ?_, by norm_num⟩
    rw [runState_eq_Z]
    decide

/-- Witness for C9: a record `⟨10000, 1⟩` under `cfg = ⟨5, 2⟩` receives a call
at `t = 0`; the leak count is `-20`, so the stored queue grows to 21 (20 from
the negative leak, 1 from the admission) with `lastLeakTime` unchanged. -/
theorem regression_increases_queue_witness :
    setLimit emptyLimits "user1" ⟨10000, 1⟩ "user1" = some ⟨10000, 1⟩ ∧
    (allowRequest ⟨5, 2⟩ (setLimit emptyLimits "user1" ⟨10000, 1⟩) "user1" 0).2 "user1" =
      some { lastLeakTime := 10000, queueSize := 21 } := by
  have h := regression_increases_queue ⟨5, 2⟩ (setLimit emptyLimits "user1" ⟨10000, 1⟩)
    "user1" 0 ⟨10000, 1⟩ rfl (by decide) (by decide) (by norm_num : (0 : ℚ) < 2)
  refine ⟨rfl, ?_⟩
  rw [h.2.2.2.1]
  simp only [requestsToLeak_eq_Z, belowCapacity_iff_Z]
  decide

/-- Claim C10: a rejected call for an already-seen key stores the post-leak
record without any increment — the leak (and any `lastLeakTime` advance)
performed during the call persists even though the call returns `false`; the
concrete run in the second conjunct returns `false` while still shrinking the
stored queue from 11 to 10 and advancing `lastLeakTime` from 10000 to 11000. -/
theorem rejected_call_state (cfg : LeakyBucketConfig) (m : String → Option UserLimit)
    (userId : String) (timestamp : ℤ) (ul : UserLimit) (hm : m userId = some ul)
    (hres : (allowRequest cfg m userId timestamp).1 = false) :
    (allowRequest cfg m userId timestamp).2 userId =
      some { lastLeakTime :=
               if 0 < requestsToLeak cfg ul timestamp then timestamp else ul.lastLeakTime,
             queueSize := max 0 (ul.queueSize - requestsToLeak cfg ul timestamp) } ∧
    ((allowRequest ⟨1, 1⟩ (runState ⟨1, 1⟩ emptyLimits [("user1", 10000), ("user1", 0)])
        "user1" 11000).1 = false ∧
      runState ⟨1, 1⟩ emptyLimits [("user1", 10000), ("user1", 0)] "user1" =
        some { lastLeakTime := 10000, queueSize := 11 } ∧
      (allowRequest ⟨1, 1⟩ (runState ⟨1, 1⟩ emptyLimits [("user1", 10000), ("user1", 0)])
          "user1" 11000).2 "user1" = some { lastLeakTime := 11000, queueSize := 10 }) := by
  have hcond : ¬ ((max 0 (ul.queueSize - requestsToLeak cfg ul timestamp) : ℤ) : ℚ) <
      cfg.bucketCapacity := by
    intro hc
    have htrue := (allowRequest_some_fst cfg m userId timestamp ul hm).mpr hc
    rw [hres] at htrue
    exact Bool.false_ne_true htrue
  refine ⟨?_, ?_, ?_, ?_⟩
  · rw [allowRequest_some_state cfg m userId timestamp ul hm, if_neg hcond, add_zero]
  · rw [runState_eq_Z, allowRequest_eq_Z]
    decide
  · rw [runState_eq_Z]
    decide
  · rw [runState_eq_Z, allowRequest_eq_Z]
    decide

/-- Witness for C10: the rejected third call of the concrete run — its state
update is exactly the clamped post-leak record with no increment. -/
theorem rejected_call_state_witness :
    runState ⟨1, 1⟩ emptyLimits [("user1", 10000), ("user1", 0)] "user1" =
      some { lastLeakTime := 10000, queueSize := 11 } ∧
    (allowRequest ⟨1, 1⟩ (runState ⟨1, 1⟩ emptyLimits [("user1", 10000), ("user1", 0)])
        "user1" 11000).1 = false ∧
    (allowRequest ⟨1, 1⟩ (runState ⟨1, 1⟩ emptyLimits [("user1", 10000), ("user1", 0)])
        "user1" 11000).2 "user1" = some { lastLeakTime := 11000, queueSize := 10 } := by
  have hm : runState ⟨1, 1⟩ emptyLimits [("user1", 10000), ("user1", 0)] "user1" =
      some { lastLeakTime := 10000, queueSize := 11 } := by
    rw [runState_eq_Z]
    decide
  have hres : (allowRequest ⟨1, 1⟩
      (runState ⟨1, 1⟩ emptyLimits [("user1", 10000), ("user1", 0)]) "user1" 11000).1 =
      false := by
    rw [runState_eq_Z, allowRequest_eq_Z]
    decide
  have h := rejected_call_state ⟨1, 1⟩
    (runState ⟨1, 1⟩ emptyLimits [("user1", 10000), ("user1", 0)]) "user1" 11000
    ⟨10000, 11⟩ hm hres
  refine ⟨hm, hres, ?_⟩
  rw [h.1]
  simp only [requestsToLeak_eq_Z]
  decide

/-- Claim C7: per-key isolation — for any interleaved sequence of calls for
two distinct keys `a` and `b` (other keys may also appear), the subsequence of
boolean results belonging to each key equals the result sequence of running
only that key's calls, in order with the same timestamps, on a fresh limiter
with the same configuration. -/
theorem per_key_isolation (cfg : LeakyBucketConfig) (calls : List (String × ℤ))
    (a b : String) (hab : a ≠ b) :
    ((runTrace cfg emptyLimits calls).filterMap
        (fun p => if p.1 = a then some p.2 else none) =
      (runTrace cfg emptyLimits (calls.filter (fun p => p.1 == a))).map Prod.snd) ∧
    ((runTrace cfg emptyLimits calls).filterMap
        (fun p => if p.1 = b then some p.2 else none) =
      (runTrace cfg emptyLimits (calls.filter (fun p => p.1 == b))).map Prod.snd) :=
  ⟨runTrace_filterMap cfg a calls emptyLimits emptyLimits rfl,
    runTrace_filterMap cfg b calls emptyLimits emptyLimits rfl⟩

/-- Witness for C7 at `cfg = ⟨2, 1⟩` with the interleaved calls
`[("user1", 0), ("user2", 0), ("user1", 0), ("user2", 500)]`. -/
theorem per_key_isolation_witness :
    ("user1" : String) ≠ "user2" ∧
    (((runTrace ⟨2, 1⟩ emptyLimits
          [("user1", 0), ("user2", 0), ("user1", 0), ("user2", 500)]).filterMap
        (fun p => if p.1 = "user1" then some p.2 else none) =
      (runTrace ⟨2, 1⟩ emptyLimits
          ([("user1", 0), ("user2", 0), ("user1", 0), ("user2", 500)].filter
            (fun p => p.1 == "user1"))).map Prod.snd) ∧
    ((runTrace ⟨2, 1⟩ emptyLimits
          [("user1", 0), ("user2", 0), ("user1", 0), ("user2", 500)]).filterMap
        (fun p => if p.1 = "user2" then some p.2 else none) =
      (runTrace ⟨2, 1⟩ emptyLimits
          ([("user1", 0), ("user2", 0), ("user1", 0), ("user2", 500)].filter
            (fun p => p.1 == "user2"))).map Prod.snd)) :=
  ⟨by decide, per_key_isolation ⟨2, 1⟩
    [("user1", 0), ("user2", 0), ("user1", 0), ("user2", 500)] "user1" "user2" (by decide)⟩

/-- Claim C2, counterexample: with the positive (fractional) capacity `1/2`
and positive rate 1, a single monotone call already stores
`queueSize = 1 > 1/2`, so `queueSize ≤ capacity` fails. -/
theorem queueSize_exceeds_fractional_capacity :
    (0 : ℚ) < (⟨1/2, 1⟩ : LeakyBucketConfig).bucketCapacity ∧
    (0 : ℚ) < (⟨1/2, 1⟩ : LeakyBucketConfig).leakRatePerSecond ∧
    PerKeyMonotone [("user1", 0)] ∧
    ∃ ul, runState ⟨1/2, 1⟩ emptyLimits [("user1", 0)] "user1" = some ul ∧
      ¬ ((ul.queueSize : ℚ) ≤ (⟨1/2, 1⟩ : LeakyBucketConfig).bucketCapacity) := by
  refine ⟨by norm_num, by norm_num, by decide, ⟨0, 1⟩, ?_, by norm_num⟩
  rw [runState_eq_Z]
  decide

/-- Claim C2, amended: for a leaky bucket limiter whose capacity is a positive
integer `c` (and positive leak rate), every record stored after any sequence
of calls whose timestamps are non-decreasing per key has
`0 ≤ queueSize ≤ capacity`. -/
theorem queueSize_within_bounds (c : ℤ) (r : ℚ) (hc : 1 ≤ c) (hr : 0 < r)
    (calls : List (String × ℤ)) (hmono : PerKeyMonotone calls) :
    ∀ userId ul, runState ⟨(c : ℚ), r⟩ emptyLimits calls userId = some ul →
      0 ≤ ul.queueSize ∧
        (ul.queueSize : ℚ) ≤ (⟨(c : ℚ), r⟩ : LeakyBucketConfig).bucketCapacity := by
  intro userId ul hm
  have hrun := runState_bounds ⟨(c : ℚ), r⟩ c rfl hc hr calls emptyLimits
    (by intro k ul' h; simp [emptyLimits] at h)
    (by intro k ul' h; simp [emptyLimits] at h)
    hmono
  obtain ⟨h0, hcb⟩ := hrun userId ul hm
  exact ⟨h0, show (ul.queueSize : ℚ) ≤ ((c : ℤ) : ℚ) by exact_mod_cast hcb⟩

/-- Witness for the amended C2 at capacity 5, rate 2, one call at time 0. -/
theorem queueSize_within_bounds_witness :
    0 ≤ (1 : ℤ) ∧
      ((1 : ℤ) : ℚ) ≤ (⟨((5 : ℤ) : ℚ), 2⟩ : LeakyBucketConfig).bucketCapacity := by
  have h := queueSize_within_bounds 5 2 (by norm_num) (by norm_num) [("user1", 0)]
    (by decide)
  exact h "user1" ⟨0, 1⟩ (by rw [runState_eq_Z]; decide)

/-- Claim C6: admission is monotonic in capacity — for every input sequence
and every pair of limiters with the same leak rate, the limiter with the
larger capacity admits at least as many calls (in fact every call admitted by
the smaller-capacity limiter is admitted by the larger one). -/
theorem admission_monotone_in_capacity
    (bucketCapacity1 bucketCapacity2 leakRatePerSecond : ℚ)
    (hcap : bucketCapacity1 ≤ bucketCapacity2) (calls : List (String × ℤ)) :
    admittedCount ⟨bucketCapacity1, leakRatePerSecond⟩ calls ≤
      admittedCount ⟨bucketCapacity2, leakRatePerSecond⟩ calls := by
  have h := runTrace_mono ⟨bucketCapacity1, leakRatePerSecond⟩
    ⟨bucketCapacity2, leakRatePerSecond⟩ rfl hcap calls emptyLimits emptyLimits
    (fun k => LimitRel_none _)
  exact count_true_le_of_forall₂ h

/-- Witness for C6 at capacities 1 ≤ 2, rate 1, two calls at time 0. -/
theorem admission_monotone_in_capacity_witness :
    (1 : ℚ) ≤ 2 ∧
      admittedCount ⟨1, 1⟩ [("user1", 0), ("user1", 0)] ≤
        admittedCount ⟨2, 1⟩ [("user1", 0), ("user1", 0)] :=
  ⟨by norm_num, admission_monotone_in_capacity 1 2 1 (by norm_num)
    [("user1", 0), ("user1", 0)]⟩

end LeakyBucket
